import Mathlib

/-!
Verification development for the pluggable session-state and certificate-selection
layer of a TLS server (source file `src/server/handy.rs`).

The Rust code is shallowly embedded: byte vectors `Vec<u8>` become `List Nat`,
the `HashMap` backing stores become association lists with unique keys, methods
taking `&self` become pure functions, methods mutating state become explicit
state-passing functions, and fallible operations return `Option` or `Except`.
The unspecified iteration order of `HashMap::keys` (used by the eviction pass of
the bounded memory cache) is modelled by an eviction oracle choosing the index
of the removed entry, quantified over in every theorem that touches eviction.
-/

set_option autoImplicit false

/-- Bytes of a Rust `Vec<u8>` or `&[u8]`. -/
abbrev Bytes := List Nat

/-- A TLS signature scheme identifier (the `SignatureScheme` enum, a wire code). -/
abbrev SignatureScheme := Nat

/-- A session identifier (`SessionID`): an opaque byte sequence. -/
structure SessionID where
  data : Bytes
deriving DecidableEq

/-- `SessionID::empty()`: the zero-length session identifier. -/
def SessionID.empty : SessionID :=
  { data := [] }

/-- `SessionID::len()`. -/
def SessionID.len (s : SessionID) : Nat :=
  s.data.length

/-- `HashMap::get` on an association list: the value bound to `k`, if any. -/
def hmGet {α β : Type} [DecidableEq α] (k : α) : List (α × β) → Option β
  | [] => none
  | e :: rest => if e.1 = k then some e.2 else hmGet k rest

/-- `HashMap::insert` on an association list with unique keys: replace the
binding of `k` when present, otherwise add a new binding. -/
def hmInsert {α β : Type} [DecidableEq α] (k : α) (v : β) : List (α × β) → List (α × β)
  | [] => [(k, v)]
  | e :: rest => if e.1 = k then (k, v) :: rest else e :: hmInsert k v rest

/-- The store `NoServerSessionStorage`, which never stores sessions. It has no
fields and its methods take `&self`, so its state never changes. -/
structure NoServerSessionStorage where
deriving DecidableEq

/-- `NoServerSessionStorage::generate`: always the empty `SessionID`. -/
def NoServerSessionStorage.generate (_ : NoServerSessionStorage) : SessionID :=
  SessionID.empty

/-- `NoServerSessionStorage::put`: drops the pair and returns `false`.
The post-state is returned explicitly to express that nothing is stored. -/
def NoServerSessionStorage.put (self : NoServerSessionStorage) (_id _sec : Bytes) :
    NoServerSessionStorage × Bool :=
  (self, false)

/-- `NoServerSessionStorage::get`: always `None`. -/
def NoServerSessionStorage.get (_ : NoServerSessionStorage) (_id : Bytes) : Option Bytes :=
  none

/-- Run a sequence of `put` calls against a `NoServerSessionStorage`. -/
def NoServerSessionStorage.runPuts (self : NoServerSessionStorage)
    (ops : List (Bytes × Bytes)) : NoServerSessionStorage :=
  ops.foldl (fun st p => (st.put p.1 p.2).1) self

/-- An eviction oracle: stands for the unspecified order of `HashMap::keys`.
Given the current map contents it chooses the index (taken modulo the length)
of the entry that `cache.keys().next().unwrap()` designates for removal. -/
abbrev EvictOracle := List (Bytes × Bytes) → Nat

/-- The bounded in-memory session store `ServerSessionMemoryCache`: a map from
session-identifier bytes to opaque state bytes, plus the fixed bound. -/
structure ServerSessionMemoryCache where
  cache : List (Bytes × Bytes)
  max_entries : Nat
deriving DecidableEq

/-- `ServerSessionMemoryCache::new(size)`: empty map, bound `size`. -/
def ServerSessionMemoryCache.new (size : Nat) : ServerSessionMemoryCache :=
  { cache := [], max_entries := size }

/-- The `while cache.len() > self.max_entries` loop of `limit_size`, with
explicit fuel (the loop removes one entry per iteration, so fuel equal to the
starting length always suffices). Each iteration removes the entry the oracle
designates, mirroring removal of the key yielded by `cache.keys().next()`. -/
def limitSizeAux (σ : EvictOracle) (maxEntries : Nat) : Nat → List (Bytes × Bytes) → List (Bytes × Bytes)
  | 0, m => m
  | fuel + 1, m =>
    if maxEntries < m.length then
      limitSizeAux σ maxEntries fuel (m.eraseIdx (σ m % m.length))
    else
      m

/-- `ServerSessionMemoryCache::limit_size`: evict arbitrary entries until the
map holds at most `max_entries` of them. -/
def ServerSessionMemoryCache.limit_size (c : ServerSessionMemoryCache) (σ : EvictOracle) :
    ServerSessionMemoryCache :=
  { c with cache := limitSizeAux σ c.max_entries c.cache.length c.cache }

/-- `ServerSessionMemoryCache::put`: insert or overwrite the binding, run the
eviction pass, and return `true`. -/
def ServerSessionMemoryCache.put (c : ServerSessionMemoryCache) (σ : EvictOracle)
    (key value : Bytes) : ServerSessionMemoryCache × Bool :=
  (ServerSessionMemoryCache.limit_size { c with cache := hmInsert key value c.cache } σ, true)

/-- `ServerSessionMemoryCache::get`: look the key up and return a clone of the
stored bytes. The method takes `&self`; the unchanged state is returned
explicitly so that frame properties can be stated. -/
def ServerSessionMemoryCache.get (c : ServerSessionMemoryCache) (key : Bytes) :
    Option Bytes × ServerSessionMemoryCache :=
  (hmGet key c.cache, c)

/-- How many of the given keys a cache currently resolves via `get`. -/
def countSome (c : ServerSessionMemoryCache) (ks : List Bytes) : Nat :=
  (ks.filter (fun k => ((c.get k).1).isSome)).length

/-- The ticket provider `NeverProducesTickets`, which never produces tickets. -/
structure NeverProducesTickets where
deriving DecidableEq

/-- `NeverProducesTickets::enabled`. -/
def NeverProducesTickets.enabled (_ : NeverProducesTickets) : Bool :=
  false

/-- `NeverProducesTickets::get_lifetime`. -/
def NeverProducesTickets.get_lifetime (_ : NeverProducesTickets) : Nat :=
  0

/-- `NeverProducesTickets::encrypt`. -/
def NeverProducesTickets.encrypt (_ : NeverProducesTickets) (_bytes : Bytes) : Option Bytes :=
  none

/-- `NeverProducesTickets::decrypt`. -/
def NeverProducesTickets.decrypt (_ : NeverProducesTickets) (_bytes : Bytes) : Option Bytes :=
  none

theorem hmGet_hmInsert_self {α β : Type} [DecidableEq α] (k : α) (v : β) (m : List (α × β)) :
    hmGet k (hmInsert k v m) = some v := by
  induction m with
  | nil => simp [hmInsert, hmGet]
  | cons e rest ih =>
    by_cases h : e.1 = k
    · simp [hmInsert, hmGet, h]
    · simp [hmInsert, hmGet, h, ih]

theorem hmGet_hmInsert_ne {α β : Type} [DecidableEq α] {k2 k : α} (v : β) (m : List (α × β))
    (h : k2 ≠ k) : hmGet k2 (hmInsert k v m) = hmGet k2 m := by
  have hk : ¬ k = k2 := Ne.symm h
  induction m with
  | nil => simp [hmInsert, hmGet, hk]
  | cons e rest ih =>
    by_cases he : e.1 = k
    · have hne : ¬ e.1 = k2 := by rw [he]; exact hk
      simp [hmInsert, hmGet, he, hne, hk]
    · simp only [hmInsert, if_neg he]
      by_cases he2 : e.1 = k2
      · simp [hmGet, he2]
      · simp [hmGet, he2, ih]

theorem limitSizeAux_length_le (σ : EvictOracle) (maxEntries : Nat) :
    ∀ (fuel : Nat) (m : List (Bytes × Bytes)), m.length - maxEntries ≤ fuel →
      (limitSizeAux σ maxEntries fuel m).length ≤ maxEntries := by
  intro fuel
  induction fuel with
  | zero =>
    intro m h
    simp only [limitSizeAux]
    omega
  | succ n ih =>
    intro m h
    by_cases hlt : maxEntries < m.length
    · have hpos : 0 < m.length := by omega
      have hlen : (m.eraseIdx (σ m % m.length)).length = m.length - 1 :=
        List.length_eraseIdx_of_lt (Nat.mod_lt _ hpos)
      simp only [limitSizeAux, if_pos hlt]
      apply ih
      omega
    · simp only [limitSizeAux, if_neg hlt]
      omega

theorem limitSizeAux_of_le (σ : EvictOracle) (maxEntries fuel : Nat)
    (m : List (Bytes × Bytes)) (h : ¬ maxEntries < m.length) :
    limitSizeAux σ maxEntries fuel m = m := by
  cases fuel with
  | zero => rfl
  | succ n => simp [limitSizeAux, h]

/-- The map contents after the fifth insertion of the five-key scenario,
before the eviction pass runs. -/
def fiveEntries : List (Bytes × Bytes) :=
  [([1], [2]), ([3], [4]), ([5], [6]), ([7], [8]), ([9], [10])]

theorem countSome_eraseIdx_five :
    ∀ j, j < 5 →
      countSome { cache := fiveEntries.eraseIdx j, max_entries := 4 }
        [[1], [3], [5], [7], [9]] = 4 := by
  decide

/-- C6: for the disabled session store, `generate` always returns the empty
`SessionID` (length 0), `put` returns `false` and stores nothing, and `get`
returns `None` for every identifier, including after any sequence of `put`
calls. -/
theorem noStorage_disabled :
    ∀ (s : NoServerSessionStorage) (id v : Bytes) (ops : List (Bytes × Bytes)),
      s.generate = SessionID.empty ∧
      (s.generate).len = 0 ∧
      s.put id v = (s, false) ∧
      s.get id = none ∧
      (s.runPuts ops).get id = none := by
  intro s id v ops
  exact ⟨rfl, rfl, rfl, rfl, rfl⟩

/-- C7: for the disabled ticket provider, `enabled` is `false`, `get_lifetime`
is `0`, and `encrypt` and `decrypt` return `None` on every input. -/
theorem neverTickets_disabled :
    ∀ (t : NeverProducesTickets) (b : Bytes),
      t.enabled = false ∧
      t.get_lifetime = 0 ∧
      t.encrypt b = none ∧
      t.decrypt b = none := by
  intro t b
  exact ⟨rfl, rfl, rfl, rfl⟩

/-- C9: for the bounded memory cache, `get` never mutates the cache: the
post-state equals the pre-state (so every lookup is unchanged by it), and the
value returned is exactly the stored bytes for that key. -/
theorem memCache_get_pure :
    ∀ (c : ServerSessionMemoryCache) (k : Bytes),
      (c.get k).2 = c ∧
      (∀ k2, hmGet k2 ((c.get k).2).cache = hmGet k2 c.cache) ∧
      (c.get k).1 = hmGet k c.cache := by
  intro c k
  exact ⟨rfl, fun _ => rfl, rfl⟩

/-- C5: for the bounded memory cache with `max_entries = 4` starting empty,
`put` always returns `true`; after `put [0x01] [0x02]`, `get [0x01]` returns
`some [0x02]` on repeated reads; a further `put [0x01] [0x04]` makes
`get [0x01]` return `some [0x04]` (overwrite, not append). -/
theorem memCache_put_get :
    ∀ (σ : EvictOracle) (c : ServerSessionMemoryCache) (k v : Bytes),
      (c.put σ k v).2 = true ∧
      ((((ServerSessionMemoryCache.new 4).put σ [1] [2]).1.get [1]).1 = some [2] ∧
       (((((ServerSessionMemoryCache.new 4).put σ [1] [2]).1.get [1]).2.get [1]).1 = some [2]) ∧
       (((((ServerSessionMemoryCache.new 4).put σ [1] [2]).1.put σ [1] [4]).1.get [1]).1 = some [4])) := by
  intro σ c k v
  exact ⟨rfl, rfl, rfl, rfl⟩

/-- C10: a `true` return from `put` does not guarantee retrievability: there is
a cache state holding exactly `max_entries` entries and a fresh key `k` such
that `put k v` returns `true` yet the immediately following `get k` returns
`None`, because the eviction pass removed the entry just inserted. -/
theorem memCache_put_true_not_retrievable :
    ∃ (σ : EvictOracle) (c : ServerSessionMemoryCache) (k v : Bytes),
      c.cache.length = c.max_entries ∧
      0 < c.max_entries ∧
      (c.get k).1 = none ∧
      (c.put σ k v).2 = true ∧
      (((c.put σ k v).1).get k).1 = none := by
  refine ⟨fun _ => 4,
    { cache := [([1], [1]), ([2], [2]), ([3], [3]), ([4], [4])], max_entries := 4 },
    [9], [9], rfl, by decide, rfl, rfl, rfl⟩

/-- C1: for the bounded memory cache constructed with `max_entries > 0`, after
every `put` the number of stored entries is at most `max_entries`; and
inserting the 5 distinct keys 0x01, 0x03, 0x05, 0x07, 0x09 into a cache with
`max_entries = 4` leaves exactly 4 of them retrievable via `get`, whichever
entry the eviction pass removes. -/
theorem memCache_size_invariant :
    (∀ (σ : EvictOracle) (c : ServerSessionMemoryCache) (k v : Bytes),
       0 < c.max_entries → ((c.put σ k v).1).cache.length ≤ c.max_entries) ∧
    (∀ σ : EvictOracle,
       countSome
         ((((((ServerSessionMemoryCache.new 4).put σ [1] [2]).1.put σ [3] [4]).1.put σ
             [5] [6]).1.put σ [7] [8]).1.put σ [9] [10]).1
         [[1], [3], [5], [7], [9]] = 4) := by
  constructor
  · intro σ c k v _
    exact limitSizeAux_length_le σ c.max_entries _ _ (Nat.sub_le _ _)
  · intro σ
    have e4 : (((((ServerSessionMemoryCache.new 4).put σ [1] [2]).1.put σ [3] [4]).1.put σ
        [5] [6]).1.put σ [7] [8]).1
        = { cache := [([1], [2]), ([3], [4]), ([5], [6]), ([7], [8])], max_entries := 4 } := rfl
    rw [e4]
    have hj : σ fiveEntries % 5 < 5 := Nat.mod_lt _ (by omega)
    have hj5 : σ fiveEntries % 5 < fiveEntries.length := hj
    have hlen : (fiveEntries.eraseIdx (σ fiveEntries % 5)).length = 4 := by
      rw [List.length_eraseIdx_of_lt hj5]
      rfl
    have hstop : ¬ 4 < (fiveEntries.eraseIdx (σ fiveEntries % 5)).length := by
      rw [hlen]
      omega
    have hfin :
        (({ cache := [([1], [2]), ([3], [4]), ([5], [6]), ([7], [8])], max_entries := 4 } :
            ServerSessionMemoryCache).put σ [9] [10]).1
        = { cache := fiveEntries.eraseIdx (σ fiveEntries % 5), max_entries := 4 } := by
      show ({ cache := limitSizeAux σ 4 4 (fiveEntries.eraseIdx (σ fiveEntries % 5)),
              max_entries := 4 } : ServerSessionMemoryCache) = _
      rw [limitSizeAux_of_le σ 4 4 _ hstop]
    rw [hfin]
    exact countSome_eraseIdx_five _ hj

/-- The configuration error type (`TLSError`); this layer only produces the
`General` variant, with a descriptive message. -/
inductive TLSError where
  | General : String → TLSError
deriving DecidableEq

/-- An abstract signing capability (`sign::SigningKey`): its contents are an
external concern, only its identity is observable here. -/
structure SigningKey where
  id : Nat
deriving DecidableEq

/-- `sign::CertifiedKey`: an ordered certificate chain (end-entity first)
paired with a signing capability, plus optional OCSP-response bytes and
optional SCT-list bytes. -/
structure CertifiedKey where
  cert : List Bytes
  key : SigningKey
  ocsp : Option Bytes
  sct_list : Option Bytes
deriving DecidableEq

/-- Modelled from the spec: `sign::CertifiedKey::new` (the `sign` module is
outside this excerpt) pairs the chain with the signing capability; the
optional OCSP and SCT-list blobs start absent. -/
def CertifiedKey.new (chain : List Bytes) (key : SigningKey) : CertifiedKey :=
  { cert := chain, key := key, ocsp := none, sct_list := none }

/-- The static resolver `AlwaysResolvesChain`: always resolves to the same
certified key. -/
structure AlwaysResolvesChain where
  ck : CertifiedKey
deriving DecidableEq

/-- `AlwaysResolvesChain::new_rsa`. Turning the private key into a signing
capability (`sign::RSASigningKey::new`) is an external collaborator, passed in
as `parseKey`; the `expect` on its failure is modelled by `Option`. -/
def AlwaysResolvesChain.new_rsa (parseKey : Bytes → Option SigningKey)
    (chain : List Bytes) (priv_key : Bytes) : Option AlwaysResolvesChain :=
  (parseKey priv_key).map (fun key => { ck := CertifiedKey.new chain key })

/-- `AlwaysResolvesChain::new_rsa_with_extras`: construct as `new_rsa`, then
attach the OCSP blob and the SCT-list blob, each only when non-empty. -/
def AlwaysResolvesChain.new_rsa_with_extras (parseKey : Bytes → Option SigningKey)
    (chain : List Bytes) (priv_key : Bytes) (ocsp scts : Bytes) :
    Option AlwaysResolvesChain :=
  (AlwaysResolvesChain.new_rsa parseKey chain priv_key).map (fun r =>
    let r1 := if ocsp.isEmpty then r else { r with ck := { r.ck with ocsp := some ocsp } }
    if scts.isEmpty then r1 else { r1 with ck := { r1.ck with sct_list := some scts } })

/-- `AlwaysResolvesChain::resolve`: a clone of the one certified key,
regardless of server name and signature schemes. -/
def AlwaysResolvesChain.resolve (r : AlwaysResolvesChain)
    (_server_name : Option String) (_sigschemes : List SignatureScheme) :
    Option CertifiedKey :=
  some r.ck

/-- A character legal inside a DNS hostname label. -/
def dnsCharOk (c : Char) : Bool :=
  c.isAlpha || c.isDigit || c == '-'

/-- A legal DNS hostname label: 1 to 63 legal characters, neither starting nor
ending with a hyphen. -/
def dnsLabelOk (l : List Char) : Bool :=
  decide (l ≠ []) && decide (l.length ≤ 63) && l.all dnsCharOk &&
  decide (l.head? ≠ some '-') && decide (l.getLast? ≠ some '-')

/-- Split a hostname into its dot-separated labels. -/
def splitLabels : List Char → List (List Char)
  | [] => [[]]
  | c :: rest =>
    if c = '.' then [] :: splitLabels rest
    else
      match splitLabels rest with
      | [] => [[c]]
      | l :: ls => (c :: l) :: ls

/-- Modelled from the spec: `webpki::DNSNameRef::try_from_ascii_str`, the
external DNS-name syntax parser (consumed, not implemented). A syntactically
legal DNS hostname is a dot-separated sequence of legal labels of bounded
total length; DNS names are case-insensitive, so ASCII letters of either case
are legal. The parser wraps a reference to its input, so on success it yields
the input string unchanged, without any normalization. -/
def tryFromAsciiStr (name : String) : Option String :=
  if decide (name.length ≤ 253) && (splitLabels name.toList).all dnsLabelOk then
    some name
  else
    none

/-- The SNI resolver `ResolvesServerCertUsingSNI`: a table from hostname
strings to certified keys. -/
structure ResolvesServerCertUsingSNI where
  by_name : List (String × CertifiedKey)
deriving DecidableEq

/-- `ResolvesServerCertUsingSNI::new`: the empty table. -/
def ResolvesServerCertUsingSNI.new : ResolvesServerCertUsingSNI :=
  { by_name := [] }

/-- `ResolvesServerCertUsingSNI::add`: parse the name (failing with a
`Bad DNS name` error), run the end-entity binding check, then insert the
entry under the given name. The binding check
(`CertifiedKey::cross_check_end_entity_cert`, in the external `sign` module)
is passed in as `crossCheck`. The unchanged or updated table is returned next
to the result. -/
def ResolvesServerCertUsingSNI.add
    (crossCheck : CertifiedKey → String → Except TLSError Unit)
    (self : ResolvesServerCertUsingSNI) (name : String) (ck : CertifiedKey) :
    ResolvesServerCertUsingSNI × Except TLSError Unit :=
  match tryFromAsciiStr name with
  | none => (self, Except.error (TLSError.General ("Bad DNS name")))
  | some checked_name =>
    match crossCheck ck checked_name with
    | Except.error e => (self, Except.error e)
    | Except.ok _ => ({ by_name := hmInsert name ck self.by_name }, Except.ok ())

/-- `ResolvesServerCertUsingSNI::resolve`: look the client-supplied server
name up in the table; without SNI, resolve nothing. -/
def ResolvesServerCertUsingSNI.resolve (self : ResolvesServerCertUsingSNI)
    (server_name : Option String) (_sigschemes : List SignatureScheme) :
    Option CertifiedKey :=
  match server_name with
  | some name => hmGet name self.by_name
  | none => none

/-- A concrete certified key for concrete scenarios. -/
def ckA : CertifiedKey :=
  { cert := [[1]], key := { id := 0 }, ocsp := none, sct_list := none }

/-- A binding check that accepts every pairing, for concrete scenarios. -/
def acceptAll : CertifiedKey → String → Except TLSError Unit :=
  fun _ _ => Except.ok ()

theorem sni_add_ok_by_name :
    ∀ (cc : CertifiedKey → String → Except TLSError Unit) (t : ResolvesServerCertUsingSNI)
      (name : String) (ck : CertifiedKey),
      (t.add cc name ck).2 = Except.ok () →
      ((t.add cc name ck).1).by_name = hmInsert name ck t.by_name := by
  intro cc t name ck h
  cases hp : tryFromAsciiStr name with
  | none => simp [ResolvesServerCertUsingSNI.add, hp] at h
  | some cn =>
    cases hc : cc ck cn with
    | error e => simp [ResolvesServerCertUsingSNI.add, hp, hc] at h
    | ok u => simp [ResolvesServerCertUsingSNI.add, hp, hc]

/-- C2: SNI `add` with a name that does not parse as a legal DNS name, or with
a certificate the binding check rejects for that name, returns an error and
leaves the table exactly as it was, so every previously succeeding lookup
still returns the same result; on success it inserts or overwrites the entry
for that name. -/
theorem sni_add_frame :
    ∀ (cc : CertifiedKey → String → Except TLSError Unit) (t : ResolvesServerCertUsingSNI)
      (name : String) (ck : CertifiedKey),
      (∀ e, (t.add cc name ck).2 = Except.error e →
        (t.add cc name ck).1 = t ∧
        ∀ (n : String) (schemes : List SignatureScheme) (k : CertifiedKey),
          t.resolve (some n) schemes = some k →
          ((t.add cc name ck).1).resolve (some n) schemes = some k) ∧
      (tryFromAsciiStr name = none → ∃ e, (t.add cc name ck).2 = Except.error e) ∧
      (∀ cn e, tryFromAsciiStr name = some cn → cc ck cn = Except.error e →
        (t.add cc name ck).2 = Except.error e) ∧
      ((t.add cc name ck).2 = Except.ok () →
        ((t.add cc name ck).1).by_name = hmInsert name ck t.by_name) := by
  intro cc t name ck
  refine ⟨?_, ?_, ?_, sni_add_ok_by_name cc t name ck⟩
  · intro e he
    have hframe : (t.add cc name ck).1 = t := by
      cases hp : tryFromAsciiStr name with
      | none => simp [ResolvesServerCertUsingSNI.add, hp]
      | some cn =>
        cases hc : cc ck cn with
        | error e2 => simp [ResolvesServerCertUsingSNI.add, hp, hc]
        | ok u => simp [ResolvesServerCertUsingSNI.add, hp, hc] at he
    exact ⟨hframe, fun n schemes k hk => by rw [hframe]; exact hk⟩
  · intro hp
    exact ⟨TLSError.General ("Bad DNS name"), by simp [ResolvesServerCertUsingSNI.add, hp]⟩
  · intro cn e hp hc
    simp [ResolvesServerCertUsingSNI.add, hp, hc]

/-- Witness for C2 at concrete inputs: adding the ill-formed name
`ex!ample.com` to the empty resolver leaves it empty, and adding
`good.example` with an accepting binding check inserts that entry. -/
theorem sni_add_frame_witness :
    ((ResolvesServerCertUsingSNI.new.add acceptAll ("ex!ample.com") ckA).1 =
      ResolvesServerCertUsingSNI.new) ∧
    ((ResolvesServerCertUsingSNI.new.add acceptAll ("good.example") ckA).1.by_name =
      hmInsert ("good.example") ckA []) :=
  ⟨((sni_add_frame acceptAll ResolvesServerCertUsingSNI.new ("ex!ample.com") ckA).1
      (TLSError.General ("Bad DNS name")) rfl).1,
   (sni_add_frame acceptAll ResolvesServerCertUsingSNI.new ("good.example") ckA).2.2.2 rfl⟩

/-- C4: SNI `resolve` with no server name is always `None`; with a server name
it returns the table entry for that name when present — in particular the key
just added by a successful `add` — and `None` when absent. -/
theorem sni_resolve_lookup :
    ∀ (t : ResolvesServerCertUsingSNI) (schemes : List SignatureScheme),
      t.resolve none schemes = none ∧
      (∀ name ck, hmGet name t.by_name = some ck → t.resolve (some name) schemes = some ck) ∧
      (∀ name, hmGet name t.by_name = none → t.resolve (some name) schemes = none) ∧
      (∀ (cc : CertifiedKey → String → Except TLSError Unit) name ck,
        (t.add cc name ck).2 = Except.ok () →
        ((t.add cc name ck).1).resolve (some name) schemes = some ck) := by
  intro t schemes
  refine ⟨rfl, fun name ck h => h, fun name h => h, ?_⟩
  intro cc name ck h
  show hmGet name ((t.add cc name ck).1).by_name = some ck
  rw [sni_add_ok_by_name cc t name ck h]
  exact hmGet_hmInsert_self name ck t.by_name

/-- Witness for C4 at concrete inputs: the empty resolver resolves nothing
without SNI and nothing for an absent name, and after adding `good.example`
it resolves that name to the added key. -/
theorem sni_resolve_lookup_witness :
    (ResolvesServerCertUsingSNI.new.resolve none [] = none) ∧
    (ResolvesServerCertUsingSNI.new.resolve (some ("other.example")) [] = none) ∧
    (((ResolvesServerCertUsingSNI.new.add acceptAll ("good.example") ckA).1).resolve
      (some ("good.example")) [] = some ckA) :=
  ⟨(sni_resolve_lookup ResolvesServerCertUsingSNI.new []).1,
   (sni_resolve_lookup ResolvesServerCertUsingSNI.new []).2.2.1 ("other.example") rfl,
   (sni_resolve_lookup ResolvesServerCertUsingSNI.new []).2.2.2 acceptAll ("good.example") ckA rfl⟩

/-- C3 fails on the code: the SNI table compares hostname keys by exact string
equality, not case-insensitively. `Example.com` and `example.com` differ only
in ASCII letter case (they agree after lowercasing), yet after a successful
add of `Example.com` the resolver returns nothing — not the added key — for
`example.com`. -/
theorem sni_case_sensitive_cex :
    ((ResolvesServerCertUsingSNI.new.add acceptAll ("Example.com") ckA).2 = Except.ok ()) ∧
    (("Example.com").toList.map Char.toLower = ("example.com").toList) ∧
    (((ResolvesServerCertUsingSNI.new.add acceptAll ("Example.com") ckA).1).resolve
        (some ("example.com")) [] = none) :=
  ⟨rfl, by decide, rfl⟩

/-- C3 (amended): the SNI table's hostname keys are compared case-sensitively,
by exact string equality: after a successful `add` of `name`, `resolve` with
exactly `name` returns the added key, while `resolve` with any other string —
including one differing from `name` only in ASCII letter case — returns
whatever it returned before the add. -/
theorem sni_exact_case :
    ∀ (cc : CertifiedKey → String → Except TLSError Unit) (t : ResolvesServerCertUsingSNI)
      (name : String) (ck : CertifiedKey) (schemes : List SignatureScheme),
      (t.add cc name ck).2 = Except.ok () →
      ((t.add cc name ck).1).resolve (some name) schemes = some ck ∧
      (∀ n, n ≠ name →
        ((t.add cc name ck).1).resolve (some n) schemes = t.resolve (some n) schemes) := by
  intro cc t name ck schemes h
  constructor
  · show hmGet name ((t.add cc name ck).1).by_name = some ck
    rw [sni_add_ok_by_name cc t name ck h]
    exact hmGet_hmInsert_self name ck t.by_name
  · intro n hn
    show hmGet n ((t.add cc name ck).1).by_name = hmGet n t.by_name
    rw [sni_add_ok_by_name cc t name ck h]
    exact hmGet_hmInsert_ne ck t.by_name hn

/-- Witness for the amended C3 at concrete inputs: after adding `Example.com`,
resolving exactly `Example.com` yields the added key, and resolving the
case-variant `example.com` yields what the empty resolver yields. -/
theorem sni_exact_case_witness :
    (((ResolvesServerCertUsingSNI.new.add acceptAll ("Example.com") ckA).1).resolve
        (some ("Example.com")) [] = some ckA) ∧
    (((ResolvesServerCertUsingSNI.new.add acceptAll ("Example.com") ckA).1).resolve
        (some ("example.com")) []
      = ResolvesServerCertUsingSNI.new.resolve (some ("example.com")) []) :=
  ⟨(sni_exact_case acceptAll ResolvesServerCertUsingSNI.new ("Example.com") ckA [] rfl).1,
   (sni_exact_case acceptAll ResolvesServerCertUsingSNI.new ("Example.com") ckA [] rfl).2
     ("example.com") (by decide)⟩

/-- C8: the static resolver built by `new_rsa_with_extras` resolves to the one
certified key it was constructed with, with identical content, for every
server name (including none) and every scheme list; the OCSP blob and the
SCT-list blob are each attached to that key exactly when non-empty. -/
theorem alwaysResolves_static :
    ∀ (parseKey : Bytes → Option SigningKey) (chain : List Bytes)
      (priv_key ocsp scts : Bytes) (r : AlwaysResolvesChain),
      AlwaysResolvesChain.new_rsa_with_extras parseKey chain priv_key ocsp scts = some r →
      (∀ (server_name : Option String) (schemes : List SignatureScheme),
        r.resolve server_name schemes = some r.ck) ∧
      r.ck.cert = chain ∧
      r.ck.ocsp = (if ocsp.isEmpty then none else some ocsp) ∧
      r.ck.sct_list = (if scts.isEmpty then none else some scts) := by
  intro parseKey chain priv_key ocsp scts r h
  refine ⟨fun _ _ => rfl, ?_⟩
  cases hk : parseKey priv_key with
  | none =>
    rw [AlwaysResolvesChain.new_rsa_with_extras, AlwaysResolvesChain.new_rsa, hk] at h
    simp [Option.map] at h
  | some key =>
    rw [AlwaysResolvesChain.new_rsa_with_extras, AlwaysResolvesChain.new_rsa, hk] at h
    simp only [Option.map, Option.some.injEq] at h
    subst h
    by_cases ho : ocsp.isEmpty <;> by_cases hs : scts.isEmpty <;>
      simp [ho, hs, CertifiedKey.new]

/-- Witness for C8 at concrete inputs: constructed with chain `[[1]]`, a
non-empty OCSP blob `[5]` and an empty SCT blob, the resolver answers every
query with that key, which carries the OCSP blob and no SCT list. -/
theorem alwaysResolves_static_witness :
    (({ ck := { cert := [[1]], key := { id := 7 }, ocsp := some [5], sct_list := none } } :
        AlwaysResolvesChain).resolve none [] =
      some { cert := [[1]], key := { id := 7 }, ocsp := some [5], sct_list := none }) ∧
    (({ ck := { cert := [[1]], key := { id := 7 }, ocsp := some [5], sct_list := none } } :
        AlwaysResolvesChain).ck.ocsp = some [5]) ∧
    (({ ck := { cert := [[1]], key := { id := 7 }, ocsp := some [5], sct_list := none } } :
        AlwaysResolvesChain).ck.sct_list = none) :=
  ⟨(alwaysResolves_static (fun _ => some { id := 7 }) [[1]] [2] [5] []
      { ck := { cert := [[1]], key := { id := 7 }, ocsp := some [5], sct_list := none } }
      rfl).1 none [],
   (alwaysResolves_static (fun _ => some { id := 7 }) [[1]] [2] [5] []
      { ck := { cert := [[1]], key := { id := 7 }, ocsp := some [5], sct_list := none } }
      rfl).2.2.1,
   (alwaysResolves_static (fun _ => some { id := 7 }) [[1]] [2] [5] []
      { ck := { cert := [[1]], key := { id := 7 }, ocsp := some [5], sct_list := none } }
      rfl).2.2.2⟩

/-- Witness for C1 at concrete inputs: with the oracle that always evicts the
first entry, a `put` on the fresh cache of capacity 4 keeps at most 4 entries,
and the five-key scenario leaves exactly 4 keys retrievable. -/
theorem memCache_size_invariant_witness :
    ((((ServerSessionMemoryCache.new 4).put (fun _ => 0) [1] [2]).1).cache.length ≤ 4) ∧
    (countSome
      ((((((ServerSessionMemoryCache.new 4).put (fun _ => 0) [1] [2]).1.put (fun _ => 0)
          [3] [4]).1.put (fun _ => 0) [5] [6]).1.put (fun _ => 0) [7] [8]).1.put (fun _ => 0)
          [9] [10]).1
      [[1], [3], [5], [7], [9]] = 4) :=
  ⟨memCache_size_invariant.1 (fun _ => 0) (ServerSessionMemoryCache.new 4) [1] [2] (by decide),
   memCache_size_invariant.2 (fun _ => 0)⟩
